import Mathlib

/-!
Shallow embedding of `movis/layer/media.py` (classes `Image`, `ImageSequence`,
`Video`) and proofs about the time-to-content resolution model.

Modelling conventions:
* numpy arrays are modelled by `NDArray`: a shape, a dtype tag, and the pixel
  data as a function from multi-indices to values;
* a `PIL.Image` object is `PILImageObj`; `convert("RGBA")` followed by
  `np.asarray` is `convertRGBA`, which by the codec contract always yields a
  `(height, width, 4)` uint8 array;
* Python floats on the timeline are modelled by `ℚ`; the Python `int(x)`
  (truncation toward zero) is `pyInt`;
* the filesystem at construction time is a predicate `ex : String → Bool`
  (`Path.exists`), and the decoder available at call time is a function
  `d : String → Option PILImageObj` (`PIL.Image.open`; `none` means the open
  or decode raises);
* methods that may mutate the instance are state-passing functions returning
  the new state; methods that may raise return `Except`.
-/

namespace Movis

/-- A numpy dtype tag; only the distinctions the source checks are kept. -/
inductive Dtype
  | uint8
  | float32
  | otherDtype
deriving DecidableEq, Repr

/-- Model of a numpy array: shape, dtype, and data indexed by a multi-index.
Entries outside the shape are irrelevant padding. -/
structure NDArray where
  shape : List Nat
  dtype : Dtype
  data : List Nat → Nat

/-- `a.ndim` of numpy. -/
def NDArray.ndim (a : NDArray) : Nat := a.shape.length

/-- `np.expand_dims(a, axis=-1)`. -/
def NDArray.expandDimsLast (a : NDArray) : NDArray :=
  ⟨a.shape ++ [1], a.dtype, fun idx => a.data idx.dropLast⟩

/-- `np.repeat(a, n, axis=-1)`: element at last-axis position `k` comes from
source position `k / n`. -/
def NDArray.repeatLast (a : NDArray) (n : Nat) : NDArray :=
  ⟨a.shape.dropLast ++ [a.shape.getLastD 0 * n], a.dtype,
   fun idx => a.data (idx.dropLast ++ [idx.getLastD 0 / n])⟩

/-- `np.full_like(a, v, dtype=dt)`. -/
def NDArray.fullLike (a : NDArray) (v : Nat) (dt : Dtype) : NDArray :=
  ⟨a.shape, dt, fun _ => v⟩

/-- `np.concatenate([a, b], axis=-1)`. -/
def NDArray.concatLast (a b : NDArray) : NDArray :=
  ⟨a.shape.dropLast ++ [a.shape.getLastD 0 + b.shape.getLastD 0], a.dtype,
   fun idx =>
     if idx.getLastD 0 < a.shape.getLastD 0 then a.data idx
     else b.data (idx.dropLast ++ [idx.getLastD 0 - a.shape.getLastD 0])⟩

/-- An abstract decoded image object (a `PIL.Image`). -/
structure PILImageObj where
  height : Nat
  width : Nat
  pixel : Nat → Nat → Fin 4 → Nat

/-- `np.asarray(im.convert("RGBA"))`: the codec contract is that the result is
a `(height, width, 4)` array of uint8. -/
def convertRGBA (p : PILImageObj) : NDArray :=
  ⟨[p.height, p.width, 4], Dtype.uint8,
   fun idx =>
     match idx with
     | [i, j, c] => if h : c < 4 then p.pixel i j ⟨c, h⟩ else 0
     | _ => 0⟩

/-- A buffer satisfying the pixel-buffer data model of the spec: 3-dimensional,
last axis of extent 4, 8-bit unsigned entries. -/
def isRGBA (a : NDArray) : Bool :=
  a.shape.length == 3 && a.shape.getLastD 0 == 4 && a.dtype == Dtype.uint8

/-- The constructor argument `img_file` of `Image` / an element of
`ImageSequence.img_files`: a path, a PIL image, a numpy array, or a value of
any other type. -/
inductive ImgInput
  | path (p : String)
  | pil (im : PILImageObj)
  | arr (a : NDArray)
  | otherInput

/-- The distinct construction-time failures of the source (assertions and
`ValueError`s), named after the error taxonomy of the spec. -/
inductive InitError
  | assetNotFound
  | dtypeNotUint8
  | notFourChannels
  | invalidShape
  | invalidInput
deriving DecidableEq, Repr

/-! ### `Image` (StillImageLayer in the spec) -/

/-- State of an `Image` instance: the mutable decoded cache `self.image`, the
deferred path `self._img_file`, and `self._duration`. -/
structure ImageLayer where
  image : Option NDArray
  imgFile : Option String
  duration : ℚ

/-- The rank-2 branch of `Image.__init__`: `np.expand_dims`, `np.repeat`
with 3 repetitions and `np.full_like` with 255, concatenated on the last
axis. -/
def grayToRGBA (g : NDArray) : NDArray :=
  let img := g.expandDimsLast
  NDArray.concatLast (img.repeatLast 3) (img.fullLike 255 Dtype.uint8)

/-- `Image.__init__`: dispatch on the type of `img_file`; path existence is
asserted, PIL images are converted eagerly, rank-2 uint8 arrays are expanded
to RGBA, rank-3 arrays must have 4 channels, anything else raises. -/
def Image.init (ex : String → Bool) (imgFile : ImgInput) (duration : ℚ) :
    Except InitError ImageLayer :=
  match imgFile with
  | .path p => if ex p then .ok ⟨none, some p, duration⟩ else .error .assetNotFound
  | .pil im => .ok ⟨some (convertRGBA im), none, duration⟩
  | .arr a =>
      if a.ndim = 2 then
        if a.dtype = Dtype.uint8 then .ok ⟨some (grayToRGBA a), none, duration⟩
        else .error .dtypeNotUint8
      else if a.ndim = 3 then
        if a.shape.getD 2 0 = 4 then .ok ⟨some a, none, duration⟩
        else .error .notFourChannels
      else .error .invalidShape
  | .otherInput => .error .invalidInput

/-- `Image.get_key`: `0 <= time < self.duration`. -/
def Image.get_key (s : ImageLayer) (t : ℚ) : Bool :=
  decide (0 ≤ t) && decide (t < s.duration)

/-- `Image._read_image`: decode and cache on first use; `d` is the decoder
available at call time. -/
def Image.read_image (d : String → Option PILImageObj) (s : ImageLayer) :
    Except Unit (NDArray × ImageLayer) :=
  match s.image with
  | some img => .ok (img, s)
  | none =>
      match s.imgFile with
      | none => .error ()
      | some p =>
          match d p with
          | none => .error ()
          | some pil =>
              let image := convertRGBA pil
              .ok (image, { s with image := some image })

/-- `Image.__call__`: returns `self._read_image()`, ignoring `time`. -/
def Image.call (d : String → Option PILImageObj) (s : ImageLayer) (_t : ℚ) :
    Except Unit (NDArray × ImageLayer) :=
  Image.read_image d s

/-- The `Image.size` property: forces the decode and returns
`(width, height)` from the array shape. -/
def Image.size (d : String → Option PILImageObj) (s : ImageLayer) :
    Except Unit ((Nat × Nat) × ImageLayer) :=
  (Image.read_image d s).map (fun r => ((r.1.shape.getD 1 0, r.1.shape.getD 0 0), r.2))

/-! ### `ImageSequence` (IntervalSequenceLayer in the spec) -/

/-- State of an `ImageSequence` instance: the interval bounds held by
`TimelineMixin`, the asset references `self.img_files`, and the per-index
cache `self.images`. -/
structure ImageSequenceLayer where
  start_times : List ℚ
  end_times : List ℚ
  img_files : List ImgInput
  images : List (Option NDArray)

/-- Modelled from the spec: the interval-lookup collaborator
(`TimelineMixin.get_state`, defined in `movis/layer/mixin.py`, which is not
among the given sources). Per the spec it maps a query time to the index of
the containing half-open interval `[start, end)` among the caller-supplied
intervals, or `-1` when the time falls in no interval; for overlapping
intervals we take the first match in construction order. -/
def intervalLookup (ivals : List (ℚ × ℚ)) (t : ℚ) : ℤ :=
  match ivals with
  | [] => -1
  | (s, e) :: rest =>
      if s ≤ t ∧ t < e then 0
      else if intervalLookup rest t < 0 then -1 else intervalLookup rest t + 1

/-- Modelled from the spec: `self.get_state(time)` inherited from
`TimelineMixin`, over the stored start and end times. -/
def ImageSequence.get_state (s : ImageSequenceLayer) (t : ℚ) : ℤ :=
  intervalLookup (s.start_times.zip s.end_times) t

/-- One iteration of the constructor loop of `ImageSequence.__init__`:
paths are existence-checked and left undecoded (`None` slot), PIL images are
converted eagerly, numpy arrays are stored as given, anything else raises. -/
def initSlot (ex : String → Bool) (f : ImgInput) : Except InitError (Option NDArray) :=
  match f with
  | .path p => if ex p then .ok none else .error .assetNotFound
  | .pil im => .ok (some (convertRGBA im))
  | .arr a => .ok (some a)
  | .otherInput => .error .invalidInput

/-- The constructor loop of `ImageSequence.__init__`, in iteration order;
the first failing element raises. -/
def initSlots (ex : String → Bool) : List ImgInput → Except InitError (List (Option NDArray))
  | [] => .ok []
  | f :: rest =>
      match initSlot ex f with
      | .error e => .error e
      | .ok slot =>
          match initSlots ex rest with
          | .error e => .error e
          | .ok slots => .ok (slot :: slots)

/-- `ImageSequence.__init__`. -/
def ImageSequence.init (ex : String → Bool) (start_times end_times : List ℚ)
    (img_files : List ImgInput) : Except InitError ImageSequenceLayer :=
  (initSlots ex img_files).map
    (fun images => ⟨start_times, end_times, img_files, images⟩)

/-- `ImageSequence.get_key`: the state index, with negative lookup results
collapsed to `-1`. -/
def ImageSequence.get_key (s : ImageSequenceLayer) (t : ℚ) : ℤ :=
  let idx := ImageSequence.get_state s t
  if idx < 0 then -1 else idx

/-- `ImageSequence.__call__`, instrumented with the number of codec
invocations it performs (0 or 1): resolve the index, return `none` when out
of every interval, decode-and-cache the path asset on a cache miss, return
the cached buffer otherwise. The inner `.error` cases are the propagated
decode failure and the failed `isinstance` assertion. -/
def ImageSequence.callC (d : String → Option PILImageObj) (s : ImageSequenceLayer)
    (t : ℚ) : Except Unit (Option NDArray × ImageSequenceLayer × Nat) :=
  let idx := ImageSequence.get_state s t
  if idx < 0 then .ok (none, s, 0)
  else
    let i := idx.toNat
    match s.images.getD i none with
    | some img => .ok (some img, s, 0)
    | none =>
        match s.img_files.getD i .otherInput with
        | .path p =>
            match d p with
            | none => .error ()
            | some pil =>
                let image := convertRGBA pil
                .ok (some image, { s with images := s.images.set i (some image) }, 1)
        | _ => .error ()

/-- `ImageSequence.__call__` (result and new state only). -/
def ImageSequence.call (d : String → Option PILImageObj) (s : ImageSequenceLayer)
    (t : ℚ) : Except Unit (Option NDArray × ImageSequenceLayer) :=
  (ImageSequence.callC d s t).map (fun r => (r.1, r.2.1))

/-- An operation of the public per-frame interface of a layer. -/
inductive SeqOp
  | keyAt (t : ℚ)
  | evalAt (t : ℚ)

/-- Run a sequence of `get_key` / `__call__` operations against an
`ImageSequence`, threading the state and accumulating the number of codec
invocations; a raised decode error aborts the run. -/
def ImageSequence.runOps (d : String → Option PILImageObj) (s : ImageSequenceLayer) :
    List SeqOp → Except Unit (ImageSequenceLayer × Nat)
  | [] => .ok (s, 0)
  | op :: rest =>
      match op with
      | .keyAt t =>
          let _ := ImageSequence.get_key s t
          ImageSequence.runOps d s rest
      | .evalAt t =>
          match ImageSequence.callC d s t with
          | .error e => .error e
          | .ok (_, s', n) =>
              (ImageSequence.runOps d s' rest).map (fun r => (r.1, n + r.2))

/-! ### `Video` (FrameRateVideoLayer in the spec) -/

/-- Python `int(x)` on a rational: truncation toward zero. -/
def pyInt (q : ℚ) : ℤ := q.num.tdiv q.den

/-- State of a `Video` instance: the metadata read eagerly at construction
and the decoder handle `self._reader`, modelled by its random-access
`get_data` method (`none` meaning the decoder raises at that index). -/
structure VideoLayer where
  fps : ℚ
  size : Nat × Nat
  n_frame : Nat
  duration : ℚ
  reader : ℤ → Option PILImageObj

/-- `Video.get_key`: `-1` outside `[0, duration]`, otherwise
`int(time * self._fps)`. -/
def Video.get_key (v : VideoLayer) (t : ℚ) : ℤ :=
  if t < 0 ∨ v.duration < t then -1
  else pyInt (t * v.fps)

/-- The frame index computed inside `Video.__call__`:
`int(time * self._fps)`, with no bounds check. -/
def Video.callIndex (v : VideoLayer) (t : ℚ) : ℤ := pyInt (t * v.fps)

/-- `Video.__call__`: fetch the frame at `int(time * self._fps)` from the
reader and convert it to RGBA; a reader failure propagates. -/
def Video.call (v : VideoLayer) (t : ℚ) : Except Unit NDArray :=
  let frame_index := pyInt (t * v.fps)
  match v.reader frame_index with
  | none => .error ()
  | some frame => .ok (convertRGBA frame)

/-! ### Helper lemmas -/

/-- Truncation toward zero agrees with the floor on nonnegative rationals. -/
lemma pyInt_eq_floor (q : ℚ) (h : 0 ≤ q) : pyInt q = ⌊q⌋ := by
  rw [pyInt, Rat.floor_def]
  exact Int.tdiv_eq_ediv (Rat.num_nonneg.mpr h) (Int.natCast_nonneg _)

/-- Successful construction of an `Image` fixes the duration to the given
argument. -/
lemma Image.init_duration {ex : String → Bool} {inp : ImgInput} {dur : ℚ}
    {s : ImageLayer} (h : Image.init ex inp dur = .ok s) : s.duration = dur := by
  cases inp with
  | path p =>
      by_cases hp : ex p <;> simp [Image.init, hp] at h
      exact h ▸ rfl
  | pil im =>
      simp [Image.init] at h
      exact h ▸ rfl
  | arr a =>
      simp only [Image.init] at h
      split_ifs at h <;> simp only [Except.ok.injEq] at h <;> exact h ▸ rfl
  | otherInput => simp [Image.init] at h

/-! ### C2: `Video.get_key` -/

/-- C2: for a `Video` with nonnegative frame rate, `get_key` returns `-1`
exactly outside `[0, duration]`, equals `⌊t * fps⌋` inside, and is
monotonically non-decreasing on `[0, duration]`. -/
theorem video_get_key_spec (v : VideoLayer) (t t' : ℚ) :
    ((t < 0 ∨ v.duration < t) → Video.get_key v t = -1) ∧
    (0 ≤ v.fps → 0 ≤ t → t ≤ v.duration → Video.get_key v t = ⌊t * v.fps⌋) ∧
    (0 ≤ v.fps → 0 ≤ t → t ≤ t' → t' ≤ v.duration → Video.get_key v t ≤ Video.get_key v t') := by
  have key_eq : ∀ u : ℚ, 0 ≤ v.fps → 0 ≤ u → u ≤ v.duration →
      Video.get_key v u = ⌊u * v.fps⌋ := by
    intro u hf h0 hd
    have hcond : ¬ (u < 0 ∨ v.duration < u) := by
      push_neg
      exact ⟨h0, hd⟩
    rw [Video.get_key, if_neg hcond]
    exact pyInt_eq_floor _ (mul_nonneg h0 hf)
  refine ⟨?_, key_eq t, ?_⟩
  · intro h
    rw [Video.get_key, if_pos h]
  · intro hf h0 hle hd
    rw [key_eq t hf h0 (hle.trans hd), key_eq t' hf (h0.trans hle) hd]
    exact Int.floor_le_floor (mul_le_mul_of_nonneg_right hle hf)

/-- A concrete video layer (fps 2, duration 10) for witnesses. -/
def vW : VideoLayer := ⟨2, (0, 0), 0, 10, fun _ => none⟩

/-- Witness for C2 at fps 2, duration 10, times `1/3` and `1/2`. -/
theorem video_get_key_spec_witness :
    Video.get_key vW (-1) = -1 ∧
    Video.get_key vW (1/3) = ⌊(1/3 : ℚ) * vW.fps⌋ ∧
    Video.get_key vW (1/3) ≤ Video.get_key vW (1/2) := by
  obtain ⟨h1, h2, h3⟩ := video_get_key_spec vW (1/3) (1/2)
  refine ⟨?_, h2 (by norm_num [vW]) (by norm_num) (by norm_num [vW]), ?_⟩
  · exact (video_get_key_spec vW (-1) 0).1 (by norm_num)
  · exact h3 (by norm_num [vW]) (by norm_num) (by norm_num) (by norm_num [vW])

/-! ### C3: the frame index used by `Video.__call__` -/

/-- A concrete video layer with fps 1, duration 10. -/
def vC3 : VideoLayer := ⟨1, (0, 0), 0, 10, fun _ => none⟩

/-- C3 counterexample: at time `-1/2` with fps 1, `Video.__call__` computes
frame index `int(-1/2) = 0` (truncation toward zero), while
`⌊-1/2 * 1⌋ = -1`; the claim that the evaluated index is `floor(t * fps)` at
every time is false for negative times. -/
theorem video_eval_floor_cex :
    Video.callIndex vC3 (-(1/2)) = 0 ∧ ⌊(-(1/2) : ℚ) * vC3.fps⌋ = -1 := by
  constructor
  · show pyInt (-(1/2) * vC3.fps) = 0
    norm_num [pyInt, vC3]
    decide
  · norm_num [vC3]

/-- C3 amended: `Video.__call__` computes its frame index as
`int(t * fps)` (truncation toward zero) — literally the same expression as
the in-range branch of `get_key`, and equal to `⌊t * fps⌋` whenever
`t * fps ≥ 0` — fetches exactly the frame at that index from the decoder
handle, and performs no check of the index against `[0, n_frame)` nor of `t`
against `[0, duration]` (its result is unchanged under arbitrary
modification of `n_frame` and `duration`). -/
theorem video_eval_index_spec (v : VideoLayer) (t : ℚ) (nf : Nat) (d' : ℚ) :
    Video.callIndex v t = pyInt (t * v.fps) ∧
    (0 ≤ t → 0 ≤ v.fps → Video.callIndex v t = ⌊t * v.fps⌋) ∧
    (0 ≤ t → t ≤ v.duration → Video.callIndex v t = Video.get_key v t) ∧
    Video.call v t =
      (match v.reader (Video.callIndex v t) with
       | none => .error ()
       | some frame => .ok (convertRGBA frame)) ∧
    Video.call { v with n_frame := nf, duration := d' } t = Video.call v t := by
  refine ⟨rfl, ?_, ?_, rfl, rfl⟩
  · intro h0 hf
    exact pyInt_eq_floor _ (mul_nonneg h0 hf)
  · intro h0 hd
    have hcond : ¬ (t < 0 ∨ v.duration < t) := by
      push_neg
      exact ⟨h0, hd⟩
    rw [Video.get_key, if_neg hcond, Video.callIndex]

/-- Witness for the amended C3 at fps 1, duration 10, time `1/2`. -/
theorem video_eval_index_spec_witness :
    Video.callIndex vC3 (1/2) = ⌊(1/2 : ℚ) * vC3.fps⌋ ∧
    Video.callIndex vC3 (1/2) = Video.get_key vC3 (1/2) := by
  obtain ⟨-, h2, h3, -, -⟩ := video_eval_index_spec vC3 (1/2) 7 5
  exact ⟨h2 (by norm_num) (by norm_num [vC3]), h3 (by norm_num) (by norm_num [vC3])⟩

/-! ### C4: `Image.get_key` -/

/-- C4: for a successfully constructed `Image` with duration `d`, `get_key`
is true exactly on the half-open window `[0, d)`; in particular it is false
at `d` itself and at every negative time. -/
theorem image_get_key_spec (ex : String → Bool) (inp : ImgInput) (dur : ℚ)
    (s : ImageLayer) (t : ℚ) (h : Image.init ex inp dur = .ok s) :
    (Image.get_key s t = true ↔ 0 ≤ t ∧ t < dur) ∧
    Image.get_key s dur = false ∧
    (t < 0 → Image.get_key s t = false) := by
  have hd : s.duration = dur := Image.init_duration h
  refine ⟨?_, ?_, ?_⟩
  · simp [Image.get_key, hd]
  · simp [Image.get_key, hd]
  · intro ht
    simp [Image.get_key, not_le.mpr ht]

/-- A concrete 2×2 grayscale uint8 array. -/
def gW : NDArray := ⟨[2, 2], Dtype.uint8, fun _ => 7⟩

/-- Witness for C4: an `Image` built from a concrete grayscale array with
duration 3; `get_key` is true at `2`, false at `3` and at `-1`. -/
theorem image_get_key_spec_witness :
    Image.init (fun _ => false) (ImgInput.arr gW) 3 =
      .ok ⟨some (grayToRGBA gW), none, 3⟩ ∧
    Image.get_key ⟨some (grayToRGBA gW), none, 3⟩ 2 = true ∧
    Image.get_key ⟨some (grayToRGBA gW), none, 3⟩ 3 = false ∧
    Image.get_key ⟨some (grayToRGBA gW), none, 3⟩ (-1) = false := by
  have hinit : Image.init (fun _ => false) (ImgInput.arr gW) 3 =
      .ok ⟨some (grayToRGBA gW), none, 3⟩ := rfl
  obtain ⟨hiff, hdur, hneg⟩ :=
    image_get_key_spec (fun _ => false) (ImgInput.arr gW) 3 _ 2 hinit
  refine ⟨hinit, hiff.mpr (by norm_num), hdur, ?_⟩
  exact (image_get_key_spec (fun _ => false) (ImgInput.arr gW) 3 _ (-1) hinit).2.2
    (by norm_num)

/-! ### C5: grayscale arrays are expanded to RGBA -/

/-- C5: an `Image` built from a rank-2 uint8 array `g` of shape `(H, W)`
produces, at every evaluation, a buffer of shape `(H, W, 4)` whose channels
0, 1, 2 equal `g` elementwise and whose channel 3 is 255 everywhere. -/
theorem gray_array_buffer_spec (ex : String → Bool) (dur : ℚ) (g : NDArray)
    (H W : Nat) (hshape : g.shape = [H, W]) (hdtype : g.dtype = Dtype.uint8)
    (s : ImageLayer) (hinit : Image.init ex (.arr g) dur = .ok s)
    (d : String → Option PILImageObj) (t : ℚ) (b : NDArray) (s' : ImageLayer)
    (hc : Image.call d s t = .ok (b, s')) :
    b.shape = [H, W, 4] ∧ b.dtype = Dtype.uint8 ∧
    (∀ i j c, c < 3 → b.data [i, j, c] = g.data [i, j]) ∧
    (∀ i j, b.data [i, j, 3] = 255) := by
  obtain ⟨gs, gd, gdata⟩ := g
  simp only [NDArray.dtype] at hdtype
  simp only [NDArray.shape] at hshape
  subst hshape
  subst hdtype
  have hnd2 : NDArray.ndim ⟨[H, W], Dtype.uint8, gdata⟩ = 2 := rfl
  simp [Image.init, hnd2] at hinit
  subst hinit
  simp [Image.call, Image.read_image] at hc
  obtain ⟨hb, -⟩ := hc
  subst hb
  refine ⟨rfl, rfl, ?_, ?_⟩
  · intro i j c hcl
    simp only [grayToRGBA, NDArray.concatLast, NDArray.repeatLast,
      NDArray.expandDimsLast, NDArray.fullLike]
    simp only [List.getLastD, List.dropLast]
    norm_num [hcl]
  · intro i j
    simp [grayToRGBA, NDArray.concatLast, NDArray.repeatLast,
      NDArray.expandDimsLast, NDArray.fullLike]

/-- Witness for C5 on the concrete 2×2 grayscale array `gW`. -/
theorem gray_array_buffer_spec_witness :
    Image.call (fun _ => none) ⟨some (grayToRGBA gW), none, 3⟩ 0 =
      .ok (grayToRGBA gW, ⟨some (grayToRGBA gW), none, 3⟩) ∧
    (grayToRGBA gW).shape = [2, 2, 4] ∧
    (grayToRGBA gW).data [0, 1, 2] = gW.data [0, 1] ∧
    (grayToRGBA gW).data [0, 1, 3] = 255 := by
  have hcall : Image.call (fun _ => none) ⟨some (grayToRGBA gW), none, 3⟩ 0 =
      .ok (grayToRGBA gW, ⟨some (grayToRGBA gW), none, 3⟩) := rfl
  obtain ⟨hs, -, hch, ha⟩ :=
    gray_array_buffer_spec (fun _ => false) 3 gW 2 2 rfl rfl _ rfl
      (fun _ => none) 0 _ _ hcall
  exact ⟨hcall, hs, hch 0 1 2 (by norm_num), ha 0 1⟩

/-! ### C7: `Image.__call__` does not depend on time -/

/-- C7: evaluation of a still image ignores the time argument entirely; a
successful call caches the returned buffer, and every later call (at any
time) returns the same buffer and leaves the state unchanged. -/
theorem still_eval_time_invariant (d : String → Option PILImageObj)
    (s : ImageLayer) (t1 t2 : ℚ) (b1 : NDArray) (s1 : ImageLayer)
    (h : Image.call d s t1 = .ok (b1, s1)) :
    (∀ ta tb, Image.call d s ta = Image.call d s tb) ∧
    s1.image = some b1 ∧
    Image.call d s1 t2 = .ok (b1, s1) := by
  refine ⟨fun _ _ => rfl, ?_⟩
  rw [Image.call, Image.read_image] at h
  cases hs : s.image with
  | some img =>
      rw [hs] at h
      simp only [Except.ok.injEq, Prod.mk.injEq] at h
      obtain ⟨hb, hs1⟩ := h
      subst hb
      subst hs1
      exact ⟨hs, by rw [Image.call, Image.read_image, hs]⟩
  | none =>
      cases hf : s.imgFile with
      | none => simp [hs, hf] at h
      | some p =>
          cases hd : d p with
          | none => simp [hs, hf, hd] at h
          | some pil =>
              simp only [hs, hf, hd, Except.ok.injEq, Prod.mk.injEq] at h
              obtain ⟨hb, hs1⟩ := h
              subst hb
              subst hs1
              exact ⟨rfl, by rw [Image.call, Image.read_image]⟩

/-- Witness for C7: a path-built `Image` decoded by a concrete decoder; the
first call at time 5 caches, the second call at time `-3` returns the same
buffer. -/
theorem still_eval_time_invariant_witness :
    Image.call (fun _ => some ⟨1, 1, fun _ _ _ => 9⟩) ⟨none, some "a.png", 3⟩ 5 =
      .ok (convertRGBA ⟨1, 1, fun _ _ _ => 9⟩,
           ⟨some (convertRGBA ⟨1, 1, fun _ _ _ => 9⟩), some "a.png", 3⟩) ∧
    Image.call (fun _ => some ⟨1, 1, fun _ _ _ => 9⟩)
      ⟨some (convertRGBA ⟨1, 1, fun _ _ _ => 9⟩), some "a.png", 3⟩ (-3) =
      .ok (convertRGBA ⟨1, 1, fun _ _ _ => 9⟩,
           ⟨some (convertRGBA ⟨1, 1, fun _ _ _ => 9⟩), some "a.png", 3⟩) := by
  have h1 : Image.call (fun _ => some ⟨1, 1, fun _ _ _ => 9⟩)
      ⟨none, some "a.png", 3⟩ 5 =
      .ok (convertRGBA ⟨1, 1, fun _ _ _ => 9⟩,
           ⟨some (convertRGBA ⟨1, 1, fun _ _ _ => 9⟩), some "a.png", 3⟩) := rfl
  obtain ⟨-, -, h3⟩ :=
    still_eval_time_invariant (fun _ => some ⟨1, 1, fun _ _ _ => 9⟩)
      ⟨none, some "a.png", 3⟩ 5 (-3) _ _ h1
  exact ⟨h1, h3⟩

/-! ### C8: construction-time failures of `Image` -/

/-- C8 counterexample: a rank-2 array whose dtype is not uint8 is rejected
at construction (the source asserts `img_file.dtype == np.uint8`), although
the failure list of the claim admits every rank-2 array. -/
theorem image_init_error_cex :
    Image.init (fun _ => true) (ImgInput.arr ⟨[1, 1], Dtype.float32, fun _ => 0⟩) 1 =
      .error InitError.dtypeNotUint8 ∧
    NDArray.ndim ⟨[1, 1], Dtype.float32, fun _ => 0⟩ = 2 :=
  ⟨rfl, rfl⟩

/-- C8 amended: `Image` construction fails exactly when the input is a
missing path (`assetNotFound`), a rank-2 array of non-uint8 dtype
(`dtypeNotUint8`), a rank-3 array without 4 channels (`notFourChannels`), an
array of rank other than 2 or 3 (`invalidShape`), or a value of another type
(`invalidInput`); an existing path yields a layer with an empty decode cache
and the deferred path (no decode is performed). -/
theorem image_init_error_spec (ex : String → Bool) (inp : ImgInput) (dur : ℚ) :
    ((∃ e, Image.init ex inp dur = .error e) ↔
      ((∃ p, inp = .path p ∧ ex p = false) ∨
       (∃ a, inp = .arr a ∧ a.ndim = 2 ∧ a.dtype ≠ Dtype.uint8) ∨
       (∃ a, inp = .arr a ∧ a.ndim = 3 ∧ a.shape.getD 2 0 ≠ 4) ∨
       (∃ a, inp = .arr a ∧ a.ndim ≠ 2 ∧ a.ndim ≠ 3) ∨
       inp = .otherInput)) ∧
    (∀ p, ex p = true → Image.init ex (.path p) dur = .ok ⟨none, some p, dur⟩) ∧
    (∀ p, ex p = false → Image.init ex (.path p) dur = .error .assetNotFound) ∧
    (∀ a, a.ndim = 2 → a.dtype ≠ Dtype.uint8 →
      Image.init ex (.arr a) dur = .error .dtypeNotUint8) ∧
    (∀ a, a.ndim = 3 → a.shape.getD 2 0 ≠ 4 →
      Image.init ex (.arr a) dur = .error .notFourChannels) ∧
    (∀ a, a.ndim ≠ 2 → a.ndim ≠ 3 →
      Image.init ex (.arr a) dur = .error .invalidShape) ∧
    Image.init ex .otherInput dur = .error .invalidInput := by
  refine ⟨⟨?_, ?_⟩, ?_, ?_, ?_, ?_, ?_, ?_⟩
  · rintro ⟨e, he⟩
    cases inp with
    | path p =>
        by_cases hp : ex p
        · simp [Image.init, hp] at he
        · exact Or.inl ⟨p, rfl, by simpa using hp⟩
    | pil im => simp [Image.init] at he
    | arr a =>
        simp only [Image.init] at he
        split_ifs at he with h2 hu h3 h4
        · exact Or.inr (Or.inl ⟨a, rfl, h2, hu⟩)
        · exact Or.inr (Or.inr (Or.inl ⟨a, rfl, h3, h4⟩))
        · exact Or.inr (Or.inr (Or.inr (Or.inl ⟨a, rfl, h2, h3⟩)))
    | otherInput => exact Or.inr (Or.inr (Or.inr (Or.inr rfl)))
  · rintro (⟨p, rfl, hp⟩ | ⟨a, rfl, h2, hu⟩ | ⟨a, rfl, h3, h4⟩ | ⟨a, rfl, h2, h3⟩ | rfl)
    · exact ⟨.assetNotFound, by simp [Image.init, hp]⟩
    · exact ⟨.dtypeNotUint8, by simp [Image.init, h2, hu]⟩
    · refine ⟨.notFourChannels, ?_⟩
      have h2 : a.ndim ≠ 2 := by omega
      simp [Image.init, h2, h3]
      simpa [List.getD] using h4
    · exact ⟨.invalidShape, by simp [Image.init, h2, h3]⟩
    · exact ⟨.invalidInput, rfl⟩
  · intro p hp
    simp [Image.init, hp]
  · intro p hp
    simp [Image.init, hp]
  · intro a h2 hu
    simp [Image.init, h2, hu]
  · intro a h3 h4
    have h2 : a.ndim ≠ 2 := by omega
    simp [Image.init, h2, h3]
    simpa [List.getD] using h4
  · intro a h2 h3
    simp [Image.init, h2, h3]
  · rfl

/-- Witness for the amended C8: an existing path is accepted without decode;
a missing path, a 3-channel rank-3 array, a rank-1 array, and a non-image
value are each rejected with the matching error. -/
theorem image_init_error_spec_witness :
    Image.init (fun _ => true) (.path "a.png") 1 = .ok ⟨none, some "a.png", 1⟩ ∧
    Image.init (fun _ => false) (.path "a.png") 1 = .error .assetNotFound ∧
    Image.init (fun _ => true) (.arr ⟨[1, 1, 3], Dtype.uint8, fun _ => 0⟩) 1 =
      .error .notFourChannels ∧
    Image.init (fun _ => true) (.arr ⟨[5], Dtype.uint8, fun _ => 0⟩) 1 =
      .error .invalidShape ∧
    Image.init (fun _ => true) .otherInput 1 = .error .invalidInput := by
  obtain ⟨-, hok, hmiss, -, h3, h1, hother⟩ :=
    image_init_error_spec (fun _ => true) (.path "a.png") 1
  refine ⟨hok "a.png" rfl, ?_, ?_, ?_, hother⟩
  · exact (image_init_error_spec (fun _ => false) (.path "a.png") 1).2.2.1 "a.png" rfl
  · exact h3 ⟨[1, 1, 3], Dtype.uint8, fun _ => 0⟩ rfl (by norm_num)
  · exact h1 ⟨[5], Dtype.uint8, fun _ => 0⟩ (by norm_num [NDArray.ndim]) (by norm_num [NDArray.ndim])

/-! ### C9: `get_key` never decodes and never mutates -/

/-- C9: every `get_key` is effect-free. Running any sequence of `get_key`
operations against an `ImageSequence` returns the state unchanged with zero
codec invocations; `Image.get_key` depends only on the stored duration (not
on the decode cache or the path); `ImageSequence.get_key` is unchanged under
arbitrary replacement of the cache slots; `Video.get_key` depends only on
the stored fps and duration (not on the decoder handle). -/
theorem get_key_effect_free (d : String → Option PILImageObj)
    (s : ImageSequenceLayer) (ts : List ℚ) (imgs' : List (Option NDArray))
    (im im' : ImageLayer) (v v' : VideoLayer) (t : ℚ) :
    ImageSequence.runOps d s (ts.map SeqOp.keyAt) = .ok (s, 0) ∧
    (im.duration = im'.duration → Image.get_key im t = Image.get_key im' t) ∧
    ImageSequence.get_key { s with images := imgs' } t = ImageSequence.get_key s t ∧
    (v.fps = v'.fps → v.duration = v'.duration →
      Video.get_key v t = Video.get_key v' t) := by
  refine ⟨?_, ?_, rfl, ?_⟩
  · induction ts with
    | nil => rfl
    | cons t₀ rest ih => simpa [ImageSequence.runOps] using ih
  · intro h
    rw [Image.get_key, Image.get_key, h]
  · intro hf hd
    rw [Video.get_key, Video.get_key, hf, hd]

/-- Witness for C9 on a concrete sequence layer, image layer, and video
layer. -/
theorem get_key_effect_free_witness :
    ImageSequence.runOps (fun _ => none) ⟨[0], [1], [ImgInput.path "a.png"], [none]⟩
      [SeqOp.keyAt 0, SeqOp.keyAt 7] =
      .ok (⟨[0], [1], [ImgInput.path "a.png"], [none]⟩, 0) ∧
    Image.get_key ⟨none, some "a.png", 3⟩ 1 =
      Image.get_key ⟨some (grayToRGBA gW), none, 3⟩ 1 ∧
    Video.get_key vW 1 = Video.get_key ⟨2, (9, 9), 44, 10, fun _ => none⟩ 1 := by
  obtain ⟨hrun, him, -, hv⟩ :=
    get_key_effect_free (fun _ => none) ⟨[0], [1], [ImgInput.path "a.png"], [none]⟩
      [(0 : ℚ), 7] [] ⟨none, some "a.png", 3⟩ ⟨some (grayToRGBA gW), none, 3⟩
      vW ⟨2, (9, 9), 44, 10, fun _ => none⟩ 1
  exact ⟨hrun, him rfl, hv rfl rfl⟩

/-! ### C10: decode failures propagate and leave the state untouched -/

/-- C10: when the lazy decode inside an evaluation fails, the error
propagates and no buffer is stored: for the interval sequence, re-running
from the same state with a decoder for which the file is readable again
performs the decode and fills exactly that slot; the same holds for the
single cache of the still image. -/
theorem lazy_decode_failure_spec (d d' : String → Option PILImageObj)
    (s : ImageSequenceLayer) (t : ℚ) (i : ℤ) (p : String) (pil : PILImageObj)
    (im : ImageLayer) :
    (ImageSequence.get_state s t = i → 0 ≤ i →
     s.images.getD i.toNat none = none →
     s.img_files.getD i.toNat .otherInput = .path p →
     d p = none →
     ImageSequence.call d s t = .error () ∧
     (d' p = some pil →
      ImageSequence.call d' s t =
        .ok (some (convertRGBA pil),
             { s with images := s.images.set i.toNat (some (convertRGBA pil)) }))) ∧
    (im.image = none → im.imgFile = some p → d p = none →
     Image.call d im t = .error () ∧
     (d' p = some pil →
      Image.call d' im t =
        .ok (convertRGBA pil, { im with image := some (convertRGBA pil) }))) := by
  constructor
  · intro hstate hpos hslot hfile hd
    have hneg : ¬ i < 0 := not_lt.mpr hpos
    have hslot' : s.images[i.toNat]?.getD none = none := by
      simpa [List.getD] using hslot
    have hfile' : s.img_files[i.toNat]?.getD ImgInput.otherInput = ImgInput.path p := by
      simpa [List.getD] using hfile
    constructor
    · simp [ImageSequence.call, ImageSequence.callC, hstate, hneg, hslot', hfile', hd,
        Except.map]
    · intro hd'
      simp [ImageSequence.call, ImageSequence.callC, hstate, hneg, hslot', hfile', hd',
        Except.map]
  · intro hcache hfile hd
    constructor
    · simp [Image.call, Image.read_image, hcache, hfile, hd]
    · intro hd'
      simp [Image.call, Image.read_image, hcache, hfile, hd']

/-- Witness for C10: one path asset, a decoder that fails, then one that
succeeds. -/
theorem lazy_decode_failure_spec_witness :
    ImageSequence.call (fun _ => none) ⟨[0], [1], [ImgInput.path "b.png"], [none]⟩ 0 =
      .error () ∧
    ImageSequence.call (fun _ => some ⟨1, 1, fun _ _ _ => 4⟩)
      ⟨[0], [1], [ImgInput.path "b.png"], [none]⟩ 0 =
      .ok (some (convertRGBA ⟨1, 1, fun _ _ _ => 4⟩),
           ⟨[0], [1], [ImgInput.path "b.png"],
            [some (convertRGBA ⟨1, 1, fun _ _ _ => 4⟩)]⟩) ∧
    Image.call (fun _ => none) ⟨none, some "b.png", 1⟩ 0 = .error () := by
  have hstate : ImageSequence.get_state ⟨[0], [1], [ImgInput.path "b.png"], [none]⟩ 0 = 0 := by
    simp [ImageSequence.get_state, intervalLookup]
  obtain ⟨hseq, him⟩ :=
    lazy_decode_failure_spec (fun _ => none) (fun _ => some ⟨1, 1, fun _ _ _ => 4⟩)
      ⟨[0], [1], [ImgInput.path "b.png"], [none]⟩ 0 0 "b.png" ⟨1, 1, fun _ _ _ => 4⟩
      ⟨none, some "b.png", 1⟩
  obtain ⟨herr, hretry⟩ := hseq hstate le_rfl rfl rfl rfl
  exact ⟨herr, hretry rfl, (him rfl rfl rfl).1⟩

/-! ### C1: the RGBA buffer invariant -/

/-- The codec output always satisfies the pixel-buffer data model. -/
lemma isRGBA_convertRGBA (p : PILImageObj) : isRGBA (convertRGBA p) = true := rfl

/-- Characterization of the cache produced by the `ImageSequence`
constructor loop: slot count matches asset count, empty slots belong to
existence-checked paths, and populated slots hold either a codec-normalized
RGBA buffer or the array of the caller stored unchanged. -/
lemma initSlots_ok {ex : String → Bool} {files : List ImgInput}
    {images : List (Option NDArray)} (h : initSlots ex files = .ok images) :
    images.length = files.length ∧
    ∀ i,
      (images.getD i none = none → i < files.length →
        ∃ p, files.getD i .otherInput = .path p ∧ ex p = true) ∧
      (∀ b, images.getD i none = some b →
        isRGBA b = true ∨ files.getD i .otherInput = .arr b) := by
  induction files generalizing images with
  | nil =>
      simp only [initSlots, Except.ok.injEq] at h
      subst h
      refine ⟨rfl, fun i => ⟨fun _ hi => absurd hi (by simp), fun b hb => ?_⟩⟩
      simp [List.getD] at hb
  | cons f rest ih =>
      rw [initSlots] at h
      cases hslot : initSlot ex f with
      | error e => rw [hslot] at h; cases h
      | ok slot =>
          rw [hslot] at h
          cases hrest : initSlots ex rest with
          | error e => rw [hrest] at h; cases h
          | ok slots =>
              rw [hrest] at h
              simp only [Except.ok.injEq] at h
              subst h
              obtain ⟨hlen, hspec⟩ := ih hrest
              refine ⟨by simp [hlen], fun i => ?_⟩
              cases i with
              | zero =>
                  refine ⟨fun hz _ => ?_, fun b hb => ?_⟩
                  · cases f with
                    | path p =>
                        refine ⟨p, rfl, ?_⟩
                        by_cases hp : ex p
                        · exact hp
                        · simp [initSlot, hp] at hslot
                    | pil im => simp [initSlot] at hslot; simp [← hslot] at hz
                    | arr a => simp [initSlot] at hslot; simp [← hslot] at hz
                    | otherInput => simp [initSlot] at hslot
                  · cases f with
                    | path p =>
                        by_cases hp : ex p
                        · simp [initSlot, hp] at hslot
                          simp [← hslot] at hb
                        · simp [initSlot, hp] at hslot
                    | pil im =>
                        simp [initSlot] at hslot
                        simp [← hslot] at hb
                        subst hb
                        exact Or.inl (isRGBA_convertRGBA im)
                    | arr a =>
                        simp [initSlot] at hslot
                        simp [← hslot] at hb
                        subst hb
                        exact Or.inr rfl
                    | otherInput => simp [initSlot] at hslot
              | succ j =>
                  refine ⟨fun hz hi => ?_, fun b hb => ?_⟩
                  · exact (hspec j).1 (by simpa using hz) (by simpa using hi)
                  · exact (hspec j).2 b (by simpa using hb)

/-- Shapes produced by the grayscale-expansion branch. -/
lemma grayToRGBA_shape (a : NDArray) : (grayToRGBA a).shape = a.shape ++ [4] := by
  obtain ⟨s, dt, f⟩ := a
  simp [grayToRGBA, NDArray.concatLast, NDArray.repeatLast, NDArray.expandDimsLast,
    NDArray.fullLike, List.getLastD_concat]

/-- The dtype of the grayscale expansion is the dtype of the input. -/
lemma grayToRGBA_dtype (a : NDArray) : (grayToRGBA a).dtype = a.dtype := rfl

/-- A concrete sequence layer holding one raw grayscale array asset. -/
def seqCex : ImageSequenceLayer := ⟨[0], [1], [ImgInput.arr gW], [some gW]⟩

/-- C1 counterexample: an `ImageSequence` constructed from a raw grayscale
array stores and returns that array unchanged, so the buffer returned by
evaluation at time 0 has shape `(2, 2)` — 2-dimensional, not a
`(height, width, 4)` RGBA buffer. -/
theorem rgba_buffer_invariant_cex :
    ImageSequence.init (fun _ => false) [0] [1] [ImgInput.arr gW] = .ok seqCex ∧
    ImageSequence.call (fun _ => none) seqCex 0 = .ok (some gW, seqCex) ∧
    gW.shape = [2, 2] ∧ gW.shape.length ≠ 3 := by
  refine ⟨rfl, ?_, rfl, by decide⟩
  have hstate : ImageSequence.get_state seqCex 0 = 0 := by
    simp [ImageSequence.get_state, seqCex, intervalLookup]
  simp only [ImageSequence.call, ImageSequence.callC, hstate]
  simp [seqCex, Except.map]

/-- C1 amended: buffers produced by the layers are `(height, width, 4)`
arrays of uint8, except that a rank-3 array accepted by `Image` is returned
as given (only its channel count is checked, not its dtype), and an
`ImageSequence` returns array-type assets exactly as supplied, with no
normalization at all. -/
theorem rgba_buffer_invariant
    (ex : String → Bool) (inp : ImgInput) (dur : ℚ) (s : ImageLayer)
    (d : String → Option PILImageObj) (t : ℚ) (b : NDArray) (s' : ImageLayer)
    (sts ets : List ℚ) (files : List ImgInput) (q : ImageSequenceLayer)
    (bq : NDArray) (q' : ImageSequenceLayer) (v : VideoLayer) (bv : NDArray) :
    (Image.init ex inp dur = .ok s → Image.call d s t = .ok (b, s') →
      b.ndim = 3 ∧ b.shape.getD 2 0 = 4 ∧ (b.dtype = Dtype.uint8 ∨ inp = .arr b)) ∧
    (ImageSequence.init ex sts ets files = .ok q →
      ImageSequence.call d q t = .ok (some bq, q') →
      isRGBA bq = true ∨ ∃ i, files.getD i .otherInput = .arr bq) ∧
    (Video.call v t = .ok bv → isRGBA bv = true) := by
  refine ⟨?_, ?_, ?_⟩
  · intro hinit hcall
    have himg : ∀ pl : PILImageObj,
        (convertRGBA pl).ndim = 3 ∧ (convertRGBA pl).shape.getD 2 0 = 4 ∧
          ((convertRGBA pl).dtype = Dtype.uint8 ∨ inp = .arr (convertRGBA pl)) :=
      fun pl => ⟨rfl, rfl, Or.inl rfl⟩
    cases inp with
    | path p =>
        by_cases hp : ex p
        · simp [Image.init, hp] at hinit
          subst hinit
          rw [Image.call, Image.read_image] at hcall
          cases hd : d p with
          | none => simp [hd] at hcall
          | some pil =>
              simp only [hd, Except.ok.injEq, Prod.mk.injEq] at hcall
              obtain ⟨hb, -⟩ := hcall
              subst hb
              exact himg pil
        · simp [Image.init, hp] at hinit
    | pil im =>
        simp [Image.init] at hinit
        subst hinit
        simp only [Image.call, Image.read_image, Except.ok.injEq, Prod.mk.injEq] at hcall
        obtain ⟨hb, -⟩ := hcall
        subst hb
        exact himg im
    | arr a =>
        simp only [Image.init] at hinit
        split_ifs at hinit with h2 hu h3 h4
        · simp only [Except.ok.injEq] at hinit
          subst hinit
          simp only [Image.call, Image.read_image, Except.ok.injEq, Prod.mk.injEq] at hcall
          obtain ⟨hb, -⟩ := hcall
          subst hb
          obtain ⟨x, y, hxy⟩ := List.length_eq_two.mp h2
          refine ⟨?_, ?_, Or.inl ?_⟩
          · simp [NDArray.ndim, grayToRGBA_shape, hxy]
          · simp [grayToRGBA_shape, hxy]
          · rw [grayToRGBA_dtype, hu]
        · simp only [Except.ok.injEq] at hinit
          subst hinit
          simp only [Image.call, Image.read_image, Except.ok.injEq, Prod.mk.injEq] at hcall
          obtain ⟨hb, -⟩ := hcall
          subst hb
          exact ⟨h3, h4, Or.inr rfl⟩
    | otherInput => simp [Image.init] at hinit
  · intro hinit hcall
    obtain ⟨images, hslots, hq⟩ :
        ∃ images, initSlots ex files = .ok images ∧
          q = ⟨sts, ets, files, images⟩ := by
      rw [ImageSequence.init] at hinit
      cases hs0 : initSlots ex files with
      | error e => rw [hs0] at hinit; cases hinit
      | ok images =>
          rw [hs0] at hinit
          simp only [Except.map, Except.ok.injEq] at hinit
          exact ⟨images, rfl, hinit.symm⟩
    obtain ⟨-, hspec⟩ := initSlots_ok hslots
    subst hq
    cases hcc : ImageSequence.callC d ⟨sts, ets, files, images⟩ t with
    | error e => rw [ImageSequence.call, hcc] at hcall; simp [Except.map] at hcall
    | ok r =>
        rw [ImageSequence.call, hcc] at hcall
        simp only [Except.map, Except.ok.injEq, Prod.mk.injEq] at hcall
        obtain ⟨hr1, -⟩ := hcall
        simp only [ImageSequence.callC] at hcc
        split at hcc
        · simp only [Except.ok.injEq] at hcc
          rw [← hcc] at hr1
          simp at hr1
        · split at hcc
          next img himg =>
            simp only [Except.ok.injEq] at hcc
            rw [← hcc] at hr1
            simp only at hr1
            obtain ⟨rfl⟩ : img = bq := by simpa using hr1
            have := (hspec _).2 bq (by simpa [List.getD] using himg)
            rcases this with h | h
            · exact Or.inl h
            · exact Or.inr ⟨_, h⟩
          next hnone =>
            split at hcc
            next p hp =>
              cases hd : d p with
              | none => rw [hd] at hcc; cases hcc
              | some pil =>
                  rw [hd] at hcc
                  simp only [Except.ok.injEq] at hcc
                  rw [← hcc] at hr1
                  simp only at hr1
                  obtain ⟨rfl⟩ : convertRGBA pil = bq := by simpa using hr1
                  exact Or.inl (isRGBA_convertRGBA pil)
            next => cases hcc
  · intro hcall
    rw [Video.call] at hcall
    cases hr : v.reader (pyInt (t * v.fps)) with
    | none => rw [hr] at hcall; cases hcall
    | some f =>
        rw [hr] at hcall
        simp only [Except.ok.injEq] at hcall
        rw [← hcall]
        exact isRGBA_convertRGBA f

/-- Witness for the amended C1 on concrete layers: an `Image` built from the
grayscale array `gW` yields a 3-dimensional 4-channel uint8 buffer, and a
video frame read through the codec is RGBA. -/
theorem rgba_buffer_invariant_witness :
    Image.call (fun _ => some ⟨1, 1, fun _ _ _ => 5⟩) ⟨some (grayToRGBA gW), none, 3⟩ 0 =
      .ok (grayToRGBA gW, ⟨some (grayToRGBA gW), none, 3⟩) ∧
    ((grayToRGBA gW).ndim = 3 ∧ (grayToRGBA gW).shape.getD 2 0 = 4 ∧
      ((grayToRGBA gW).dtype = Dtype.uint8 ∨ ImgInput.arr gW = .arr (grayToRGBA gW))) ∧
    Video.call ⟨1, (1, 1), 1, 1, fun _ => some ⟨1, 1, fun _ _ _ => 5⟩⟩ 0 =
      .ok (convertRGBA ⟨1, 1, fun _ _ _ => 5⟩) ∧
    isRGBA (convertRGBA ⟨1, 1, fun _ _ _ => 5⟩) = true := by
  have hcall : Image.call (fun _ => some ⟨1, 1, fun _ _ _ => 5⟩)
      ⟨some (grayToRGBA gW), none, 3⟩ 0 =
      .ok (grayToRGBA gW, ⟨some (grayToRGBA gW), none, 3⟩) := rfl
  have hv : Video.call ⟨1, (1, 1), 1, 1, fun _ => some ⟨1, 1, fun _ _ _ => 5⟩⟩ 0 =
      .ok (convertRGBA ⟨1, 1, fun _ _ _ => 5⟩) := by
    norm_num [Video.call, pyInt]
  obtain ⟨h1, -, h3⟩ :=
    rgba_buffer_invariant (fun _ => false) (.arr gW) 3 ⟨some (grayToRGBA gW), none, 3⟩
      (fun _ => some ⟨1, 1, fun _ _ _ => 5⟩) 0 (grayToRGBA gW)
      ⟨some (grayToRGBA gW), none, 3⟩ [0] [1] [.path "w.png"]
      ⟨[0], [1], [.path "w.png"], [none]⟩ (convertRGBA ⟨1, 1, fun _ _ _ => 5⟩)
      ⟨[0], [1], [.path "w.png"], [none]⟩
      ⟨1, (1, 1), 1, 1, fun _ => some ⟨1, 1, fun _ _ _ => 5⟩⟩
      (convertRGBA ⟨1, 1, fun _ _ _ => 5⟩)
  exact ⟨hcall, h1 rfl hcall, hv, h3 hv⟩

/-! ### C6: each cache slot is decoded at most once -/

/-- The in-range state indices resolved by the evaluate operations in
`ops`, relative to the interval bounds of `s`, in call order. -/
def opsIdx (s : ImageSequenceLayer) : List SeqOp → List Nat
  | [] => []
  | op :: rest =>
      match op with
      | .keyAt _ => opsIdx s rest
      | .evalAt t =>
          if ImageSequence.get_state s t < 0 then opsIdx s rest
          else (ImageSequence.get_state s t).toNat :: opsIdx s rest

/-- The number of distinct in-range indices evaluated by `ops` whose cache
slot is empty in `s`. -/
def specCount (s : ImageSequenceLayer) (ops : List SeqOp) : Nat :=
  (((opsIdx s ops).filter (fun i => (s.images.getD i none).isNone)).toFinset).card

/-- The resolved indices depend only on the interval bounds, not on the
cache. -/
lemma opsIdx_images_invariant (s : ImageSequenceLayer)
    (imgs : List (Option NDArray)) (ops : List SeqOp) :
    opsIdx { s with images := imgs } ops = opsIdx s ops := by
  induction ops with
  | nil => rfl
  | cons op rest ih =>
      cases op with
      | keyAt t => simpa [opsIdx] using ih
      | evalAt t =>
          have hst : ImageSequence.get_state { s with images := imgs } t =
              ImageSequence.get_state s t := rfl
          simp only [opsIdx, hst, ih]

/-- A nonnegative interval-lookup result indexes into the interval list. -/
lemma intervalLookup_lt_length {ivals : List (ℚ × ℚ)} {t : ℚ}
    (h : 0 ≤ intervalLookup ivals t) :
    (intervalLookup ivals t).toNat < ivals.length := by
  induction ivals with
  | nil => simp [intervalLookup] at h
  | cons iv rest ih =>
      obtain ⟨a, b⟩ := iv
      rw [intervalLookup] at h ⊢
      by_cases hc : a ≤ t ∧ t < b
      · rw [if_pos hc]
        simp
      · rw [if_neg hc] at h ⊢
        by_cases hr : intervalLookup rest t < 0
        · rw [if_pos hr] at h
          omega
        · rw [if_neg hr] at h ⊢
          have := ih (not_lt.mp hr)
          simp only [List.length_cons]
          omega

/-- Main accounting lemma for C6: under a total decoder, running any
sequence of `get_key` / `__call__` operations succeeds, the number of codec
invocations equals the number of distinct in-range indices evaluated whose
slot started empty, the intervals and asset list are untouched, the cache
length is preserved, and populated slots are never overwritten. -/
lemma runOps_count (d : String → Option PILImageObj)
    (Hd : ∀ p, (d p).isSome = true) (ops : List SeqOp) :
    ∀ (s : ImageSequenceLayer),
    s.start_times.length = s.images.length →
    s.end_times.length = s.images.length →
    s.img_files.length = s.images.length →
    (∀ i, i < s.images.length → s.images.getD i none = none →
      ∃ p, s.img_files.getD i .otherInput = .path p) →
    ∃ s', ImageSequence.runOps d s ops = .ok (s', specCount s ops) ∧
      s'.start_times = s.start_times ∧ s'.end_times = s.end_times ∧
      s'.img_files = s.img_files ∧ s'.images.length = s.images.length ∧
      (∀ i c, s.images.getD i none = some c → s'.images.getD i none = some c) := by
  induction ops with
  | nil =>
      intro s _ _ _ _
      exact ⟨s, by simp [ImageSequence.runOps, specCount, opsIdx], rfl, rfl, rfl, rfl,
        fun _ _ h => h⟩
  | cons op rest ih =>
      intro s Hst Hen Hf Hpath
      cases op with
      | keyAt t =>
          obtain ⟨s', hrun, h1, h2, h3, h4, h5⟩ := ih s Hst Hen Hf Hpath
          refine ⟨s', ?_, h1, h2, h3, h4, h5⟩
          have hsc : specCount s (SeqOp.keyAt t :: rest) = specCount s rest := by
            simp [specCount, opsIdx]
          rw [hsc]
          simpa [ImageSequence.runOps] using hrun
      | evalAt t =>
          by_cases hneg : ImageSequence.get_state s t < 0
          · have hcc : ImageSequence.callC d s t = .ok (none, s, 0) := by
              simp [ImageSequence.callC, hneg]
            obtain ⟨s', hrun, h1, h2, h3, h4, h5⟩ := ih s Hst Hen Hf Hpath
            refine ⟨s', ?_, h1, h2, h3, h4, h5⟩
            have hsc : specCount s (SeqOp.evalAt t :: rest) = specCount s rest := by
              simp [specCount, opsIdx, hneg]
            rw [hsc]
            simp only [ImageSequence.runOps, hcc]
            rw [hrun]
            simp [Except.map]
          · have hpos : 0 ≤ ImageSequence.get_state s t := not_lt.mp hneg
            have hrange : (ImageSequence.get_state s t).toNat < s.images.length := by
              have hlt := @intervalLookup_lt_length (s.start_times.zip s.end_times) t hpos
              rw [List.length_zip] at hlt
              have hrw : ImageSequence.get_state s t =
                  intervalLookup (s.start_times.zip s.end_times) t := rfl
              rw [hrw]
              omega
            have hidxcons : opsIdx s (SeqOp.evalAt t :: rest) =
                (ImageSequence.get_state s t).toNat :: opsIdx s rest := by
              simp [opsIdx, hneg]
            cases hslot : s.images.getD (ImageSequence.get_state s t).toNat none with
            | some img =>
                have hcc : ImageSequence.callC d s t = .ok (some img, s, 0) := by
                  simp only [ImageSequence.callC, if_neg hneg, hslot]
                obtain ⟨s', hrun, h1, h2, h3, h4, h5⟩ := ih s Hst Hen Hf Hpath
                refine ⟨s', ?_, h1, h2, h3, h4, h5⟩
                have hsc : specCount s (SeqOp.evalAt t :: rest) = specCount s rest := by
                  rw [specCount, specCount, hidxcons,
                    List.filter_cons_of_neg (by simp only [hslot]; simp)]
                rw [hsc]
                simp only [ImageSequence.runOps, hcc]
                rw [hrun]
                simp [Except.map]
            | none =>
                obtain ⟨p, hp⟩ := Hpath _ hrange hslot
                obtain ⟨pil, hpil⟩ := Option.isSome_iff_exists.mp (Hd p)
                have hcc : ImageSequence.callC d s t =
                    .ok (some (convertRGBA pil),
                      ({ s with images := s.images.set (ImageSequence.get_state s t).toNat (some (convertRGBA pil)) } : ImageSequenceLayer),
                      1) := by
                  simp only [ImageSequence.callC, if_neg hneg, hslot, hp, hpil]
                set kn := (ImageSequence.get_state s t).toNat with hkn
                set s2 : ImageSequenceLayer :=
                  { s with images := s.images.set kn (some (convertRGBA pil)) } with hs2
                have himg2 : s2.images = s.images.set kn (some (convertRGBA pil)) := by
                  rw [hs2]
                have hp1 : s2.start_times = s.start_times := by rw [hs2]
                have hp2 : s2.end_times = s.end_times := by rw [hs2]
                have hp3 : s2.img_files = s.img_files := by rw [hs2]
                have hlen2 : s2.images.length = s.images.length := by
                  rw [himg2, List.length_set]
                have Hpath2 : ∀ i, i < s2.images.length → s2.images.getD i none = none →
                    ∃ q, s2.img_files.getD i .otherInput = .path q := by
                  intro i hi hnone
                  rw [himg2] at hnone
                  rw [hlen2] at hi
                  rw [hp3]
                  rw [List.getD_eq_getElem?_getD] at hnone
                  by_cases hik : kn = i
                  · subst hik
                    rw [List.getElem?_set_self hrange] at hnone
                    simp at hnone
                  · rw [List.getElem?_set_ne hik] at hnone
                    exact Hpath i hi (by simpa [List.getD_eq_getElem?_getD] using hnone)
                obtain ⟨s', hrun, h1, h2, h3, h4, h5⟩ := ih s2
                  (by rw [hp1, hlen2]; exact Hst) (by rw [hp2, hlen2]; exact Hen)
                  (by rw [hp3, hlen2]; exact Hf) Hpath2
                refine ⟨s', ?_, by rw [h1, hp1], by rw [h2, hp2], by rw [h3, hp3],
                  by rw [h4, hlen2], ?_⟩
                · have hsc : specCount s (SeqOp.evalAt t :: rest) =
                      1 + specCount s2 rest := by
                    have hidx2 : opsIdx s2 rest = opsIdx s rest :=
                      opsIdx_images_invariant s _ rest
                    have hPk : ((fun i => (s.images.getD i none).isNone) kn) = true := by
                      show (s.images.getD kn none).isNone = true
                      rw [hslot]
                      rfl
                    have hfilter2 :
                        ((opsIdx s rest).filter
                          (fun i => (s2.images.getD i none).isNone)).toFinset =
                        (((opsIdx s rest).filter
                          (fun i => (s.images.getD i none).isNone)).toFinset).erase kn := by
                      ext j
                      simp only [List.mem_toFinset, List.mem_filter, Finset.mem_erase]
                      constructor
                      · rintro ⟨hj, hPj⟩
                        have hjk : j ≠ kn := by
                          intro hjeq
                          subst hjeq
                          simp [List.getD_eq_getElem?_getD,
                            List.getElem?_set_self hrange] at hPj
                        refine ⟨hjk, hj, ?_⟩
                        simpa [List.getD_eq_getElem?_getD,
                          List.getElem?_set_ne (fun h => hjk h.symm)] using hPj
                      · rintro ⟨hjk, hj, hPj⟩
                        refine ⟨hj, ?_⟩
                        simpa [List.getD_eq_getElem?_getD,
                          List.getElem?_set_ne (fun h => hjk h.symm)] using hPj
                    rw [specCount, specCount, hidxcons, hidx2,
                      @List.filter_cons_of_pos _ (fun i => (s.images.getD i none).isNone)
                        kn (opsIdx s rest) hPk,
                      List.toFinset_cons, hfilter2]
                    by_cases hmem : kn ∈
                        ((opsIdx s rest).filter
                          (fun i => (s.images.getD i none).isNone)).toFinset
                    · have hce := Finset.card_erase_add_one hmem
                      rw [Finset.insert_eq_self.mpr hmem]
                      omega
                    · rw [Finset.erase_eq_of_not_mem hmem,
                        Finset.card_insert_of_not_mem hmem]
                      omega
                  rw [hsc]
                  simp only [ImageSequence.runOps, hcc]
                  rw [hrun]
                  simp [Except.map]
                · intro i c hc
                  have hik : kn ≠ i := by
                    intro hjeq
                    rw [hjeq] at hslot
                    rw [hslot] at hc
                    cases hc
                  refine h5 i c ?_
                  rw [himg2, List.getD_eq_getElem?_getD, List.getElem?_set_ne hik,
                    ← List.getD_eq_getElem?_getD]
                  exact hc

/-- C6 amended: for a constructed `ImageSequence` (with interval lists of
matching length) driven by a total decoder, any sequence of `get_key` and
evaluate calls performs exactly one decode per distinct in-range index
evaluated whose cache slot started empty (eagerly materialized array/PIL
slots are never decoded), never overwrites a populated slot, returns the
stored buffer of a populated slot unchanged with no decode, and preserves the
lengths of the interval, asset, and cache sequences, which are all equal. -/
theorem seq_decode_once_spec (ex : String → Bool) (d : String → Option PILImageObj)
    (Hd : ∀ p, (d p).isSome = true) (sts ets : List ℚ) (files : List ImgInput)
    (q : ImageSequenceLayer) (hinit : ImageSequence.init ex sts ets files = .ok q)
    (hst : sts.length = files.length) (het : ets.length = files.length)
    (ops : List SeqOp) (t : ℚ) (b : NDArray) :
    (∃ q', ImageSequence.runOps d q ops = .ok (q', specCount q ops) ∧
      q'.start_times = q.start_times ∧ q'.end_times = q.end_times ∧
      q'.img_files = q.img_files ∧ q'.images.length = q.images.length ∧
      (∀ j c, q.images.getD j none = some c → q'.images.getD j none = some c)) ∧
    (0 ≤ ImageSequence.get_state q t →
      q.images.getD (ImageSequence.get_state q t).toNat none = some b →
      ImageSequence.callC d q t = .ok (some b, q, 0)) ∧
    q.start_times.length = q.images.length ∧
    q.end_times.length = q.images.length ∧
    q.img_files.length = q.images.length := by
  obtain ⟨images, hslots, hq⟩ :
      ∃ images, initSlots ex files = .ok images ∧
        q = ⟨sts, ets, files, images⟩ := by
    rw [ImageSequence.init] at hinit
    cases hs0 : initSlots ex files with
    | error e => rw [hs0] at hinit; cases hinit
    | ok images =>
        rw [hs0] at hinit
        simp only [Except.map, Except.ok.injEq] at hinit
        exact ⟨images, rfl, hinit.symm⟩
  obtain ⟨hlen, hspec⟩ := initSlots_ok hslots
  subst hq
  have Hst : sts.length = images.length := by rw [hlen, hst]
  have Het : ets.length = images.length := by rw [hlen, het]
  have Hfl : files.length = images.length := hlen.symm
  refine ⟨?_, ?_, Hst, Het, Hfl⟩
  · obtain ⟨s', hrun, h1, h2, h3, h4, h5⟩ :=
      runOps_count d Hd ops ⟨sts, ets, files, images⟩ Hst Het Hfl
        (fun i hi hnone => by
          have hi' : i < images.length := hi
          obtain ⟨p, hp, -⟩ := (hspec i).1 hnone (by omega)
          exact ⟨p, hp⟩)
    exact ⟨s', hrun, h1, h2, h3, h4, h5⟩
  · intro hpos hslot
    simp only [ImageSequence.callC, if_neg (not_lt.mpr hpos), hslot]

/-- The decoded form of the only asset of the C6 counterexample layer. -/
def pilC6 : PILImageObj := ⟨1, 1, fun _ _ _ => 2⟩

/-- The C6 counterexample layer: one PIL asset, eagerly materialized at
construction. -/
def seqC6 : ImageSequenceLayer := ⟨[0], [1], [ImgInput.pil pilC6], [some (convertRGBA pilC6)]⟩

/-- C6 counterexample: for an `ImageSequence` built from one PIL image, the
slot is populated at construction, so evaluating the in-range index 0 once
performs zero decode operations while the number of distinct in-range
indices ever evaluated is one — the claimed equality `decodes = distinct
in-range indices evaluated` fails. -/
theorem seq_decode_once_cex :
    ImageSequence.init (fun _ => false) [0] [1] [ImgInput.pil pilC6] = .ok seqC6 ∧
    ImageSequence.get_key seqC6 0 = 0 ∧
    ImageSequence.runOps (fun _ => none) seqC6 [SeqOp.evalAt 0] = .ok (seqC6, 0) ∧
    (0 : ℕ) ≠ 1 := by
  have hstate : ImageSequence.get_state seqC6 0 = 0 := by
    simp [ImageSequence.get_state, seqC6, intervalLookup]
  have hcc : ImageSequence.callC (fun _ => none) seqC6 0 =
      .ok (some (convertRGBA pilC6), seqC6, 0) := by
    simp only [ImageSequence.callC, hstate]
    norm_num
    rfl
  refine ⟨rfl, ?_, ?_, by decide⟩
  · rw [ImageSequence.get_key, hstate]
    rfl
  · simp only [ImageSequence.runOps, hcc]
    rfl

/-- Decoder used by the C6 witness: every path decodes to a fixed 1×1
image. -/
def dWit : String → Option PILImageObj := fun _ => some ⟨1, 1, fun _ _ _ => 3⟩

/-- The C6 witness layer: two path assets on intervals `[0,1)` and
`[1,2)`. -/
def qWit : ImageSequenceLayer :=
  ⟨[0, 1], [1, 2], [ImgInput.path "a", ImgInput.path "b"], [none, none]⟩

/-- The C6 witness operations: index 0 evaluated twice, a `get_key`, then
index 1 evaluated once. -/
def opsWit : List SeqOp := [SeqOp.evalAt 0, SeqOp.evalAt 0, SeqOp.keyAt 0, SeqOp.evalAt 1]

/-- Witness for the amended C6: four calls touching two distinct in-range
indices with initially empty slots perform exactly two decodes. -/
theorem seq_decode_once_spec_witness :
    specCount qWit opsWit = 2 ∧
    (ImageSequence.runOps dWit qWit opsWit).map (fun r => r.2) = .ok 2 := by
  have h2 : specCount qWit opsWit = 2 := by decide
  obtain ⟨⟨q', hrun, -, -, -, -, -⟩, -, -, -, -⟩ :=
    seq_decode_once_spec (fun _ => true) dWit (fun _ => rfl) [0, 1] [1, 2]
      [ImgInput.path "a", ImgInput.path "b"] qWit rfl rfl rfl opsWit 0 gW
  refine ⟨h2, ?_⟩
  rw [hrun, h2]
  rfl

end Movis
